import Mathlib

/-!
Shallow embedding of the MTD maintenance utility
`project/make_meta/mtd_updateEngeen/mtd_debug.c`.

System calls (`ioctl`, `read`, `write`, `fread`, `malloc`, `lseek`,
`open`, `creat`, `close`) are modelled by oracle parameters: a function
from a call index (and, where relevant, the requested byte count) to the
result that call returns.  Machine integers are modelled as `Nat` for
sizes/counts (the program uses them only in ranges where no overflow
occurs for 32-bit lengths) and as `Int` for system-call return values,
whose sign the program inspects.  Output is modelled as a trace of
events: every `read`/`write`/`fread` call with its requested count and
result, and every message with the stream (`stdout` via `printf`,
`stderr` via `fprintf(stderr, ...)`/`perror`) it is printed on.
-/

/-- Which output stream a message is printed on: `printf` writes to
standard output, `fprintf(stderr, ...)` and `perror` to standard error. -/
inductive StdStream where
  | stdout
  | stderr
deriving DecidableEq, Repr

/-- The messages the transfer engine and the eraser print, keyed by which
format string of the source produced them, with the numeric fields
the format string interpolates. -/
inductive MsgK where
  | perror (fn : String)
  | readErr (size n : Nat)
  | shortRead (requested got : Nat)
  | writeErr (size n : Nat)
  | freadErr (size n : Nat)
  | shortWrite (got requested : Nat)
  | mallocFail (size : Nat)
  | tryBufSize (size : Nat)
  | copiedToFile (len offset : Nat)
  | copiedToFlash (len offset : Nat)
  | erased (bytes offset : Nat)
deriving DecidableEq, Repr

/-- One observable event of a bulk transfer: an I/O call on the device or
the file, or a printed message. -/
inductive Ev where
  | readDev (count : Nat) (res : Int)
  | writeFile (count : Nat) (res : Int)
  | freadFile (count : Nat) (ok : Bool)
  | writeDev (count : Nat) (res : Int)
  | msg (s : StdStream) (k : MsgK)
deriving DecidableEq, Repr

/-- `BUF_SIZE` from the source: `64 * 1024 * sizeof(u_int8_t)`. -/
def bufSize : Nat := 64 * 1024

/-- Lines 127-138 (`flash_to_file`) and 193-204 (`file_to_flash`): the
`malloc` retry logic, identical in both directions.

```
retry:
  if ((buf = malloc(size)) == NULL) {
    fprintf(stderr, "%s: malloc(%#x)\n", __func__, size);
    if (size != BUF_SIZE) {
      size = BUF_SIZE;
      fprintf(stderr, "%s: trying buffer size %#x\n", __func__, size);
      goto retry;
    }
    perror("malloc()");
    goto fail;
  }
```

`allocOk attempt size` says whether the `malloc` call at that attempt
index succeeds.  The `goto retry` loop re-enters at most once: after the
first failure `size` equals `BUF_SIZE`, so the `size != BUF_SIZE` guard
fails on the second failure.  The definition is the loop's complete
unfolding.  Returns the sizes requested in order, the stderr
diagnostics, and the obtained buffer size (or `none` when allocation
failed entirely). -/
def allocAttempts (allocOk : Nat → Nat → Bool) (size : Nat) :
    List Nat × List Ev × Option Nat :=
  if allocOk 0 size then ([size], [], some size)
  else if size ≠ bufSize then
    if allocOk 1 bufSize then
      ([size, bufSize],
       [.msg .stderr (.mallocFail size), .msg .stderr (.tryBufSize bufSize)],
       some bufSize)
    else
      ([size, bufSize],
       [.msg .stderr (.mallocFail size), .msg .stderr (.tryBufSize bufSize),
        .msg .stderr (.mallocFail bufSize), .msg .stderr (.perror "malloc()")],
       none)
  else
    ([size], [.msg .stderr (.mallocFail size), .msg .stderr (.perror "malloc()")],
     none)

/-- The `flags = "KMGT"` table of `printsize` (line 100). -/
def sizeFlags : List Char := ['K', 'M', 'G', 'T']

/-- The scaling loop of `printsize` (lines 103-104):
`for (i = 0; x >= 1024 && flags[i] != '\0'; i++) x /= 1024;`.
The condition `flags[i] != '\0'` on the four-character string "KMGT" is
`i < 4`; `fuel` is the number of flag-table entries remaining, `4 - i`,
so the guard `i < 4` is `0 < fuel`.  Returns the final `x` and `i`. -/
def scaleLoopGo : Nat → Nat → Nat → Nat × Nat
  | 0, x, i => (x, i)
  | fuel + 1, x, i => if 1024 ≤ x then scaleLoopGo fuel (x / 1024) (i + 1) else (x, i)

/-- The scaling loop started at `i = 0`, where all four flag-table
entries remain. -/
def scaleLoop (x : Nat) : Nat × Nat := scaleLoopGo 4 x 0

/-- `printsize` (lines 97-108): prints the raw value `x`, then, when the
post-loop decremented index is still non-negative, the scaled value and
the suffix `flags[i]`.  Modelled as the pair of the raw printed value and
the optional printed `(scaled, suffix)` pair. -/
def printsize (x : Nat) : Nat × Option (Nat × Char) :=
  let p := scaleLoop x
  if p.2 = 0 then (x, none)
  else (x, some (p.1, sizeFlags.getD (p.2 - 1) ' '))

/-- One entry of the kernel's `struct region_info_user`: `regionindex` is
filled in by the caller as the request, the other fields by the
`MEMGETREGIONINFO` ioctl. -/
structure RegionInfo where
  offset : Nat
  erasesize : Nat
  numblocks : Nat
  regionindex : Nat
deriving DecidableEq, Repr

/-- Which ioctl query `getregions` issued. -/
inductive Query where
  | count
  | region (i : Nat)
deriving DecidableEq, Repr

/-- The per-region loop of `getregions` (lines 72-77): for `i` rising
while `i < n`, set `regions[i].regionindex = i`, issue
`MEMGETREGIONINFO`, and stop with the error on a nonzero result.
`q i` yields the ioctl result and the `(offset, erasesize, numblocks)`
triple the kernel fills for index `i`.  Returns the final error value,
the regions filled in, and the region queries issued, recursing on the
number of remaining iterations. -/
def getregionsLoop (q : Nat → Int × Nat × Nat × Nat) : Nat → Nat → Int × List RegionInfo × List Query
  | _, 0 => (0, [], [])
  | i, rem + 1 =>
    let r := q i
    if r.1 ≠ 0 then (r.1, [], [.region i])
    else
      let rec' := getregionsLoop q (i + 1) rem
      (rec'.1, ⟨r.2.1, r.2.2.1, r.2.2.2, i⟩ :: rec'.2.1, .region i :: rec'.2.2)

/-- `getregions` (lines 65-79): first the `MEMGETREGIONCOUNT` ioctl,
whose result is `cntRes.1` and whose output parameter `*n` is
`cntRes.2`; a nonzero result returns immediately.  Then the per-region
loop runs for `*n` iterations (`Int.toNat` renders the C `for` loop's
zero iterations on a non-positive count). -/
def getregions (cntRes : Int × Int) (q : Nat → Int × Nat × Nat × Nat) :
    Int × List RegionInfo × List Query :=
  if cntRes.1 ≠ 0 then (cntRes.1, [], [.count])
  else
    let r := getregionsLoop q 0 cntRes.2.toNat
    (r.1, r.2.1, .count :: r.2.2)

/-- The head adjustment `if (n <= size) size = n;` both copy loops make
before each I/O step: the chunk requested is the buffer size, or the
remaining tail if smaller. -/
def chunk (n size : Nat) : Nat :=
  if n ≤ size then n else size

/-- Outcome of one iteration of a copy loop body: abort (`goto fail` or an
early error return), normal loop exit (`while (n > 0)` is false), or
continuation with the new remaining count and buffer size.  Each carries
the events of the iteration. -/
inductive StepOut where
  | abort (tr : List Ev)
  | done (tr : List Ev)
  | next (n size : Nat) (tr : List Ev)
deriving DecidableEq, Repr

/-- One iteration of the `flash_to_file` copy loop (lines 139-162):

```
if (n <= size) size = n;
err = read(fd, buf, size);
if (err < 0) { fprintf(...); perror("read()"); goto fail; }
if (err < size) { fprintf(stderr, "...short read, requested %#x, read %#x", size, err); }
err = write(outfd, buf, err);
if (err < 0) { fprintf(...); perror("write()"); goto fail; }
if (err != size) { fprintf(stderr, "Couldn't copy entire buffer ... (%d/%d bytes copied)", err, size); goto fail; }
n -= size;
```

followed by the `while (n > 0)` test.  `rd i c` and `wr i c` are the
results of the device `read` and file `write` calls of iteration `i`
with requested count `c`.  Note the `write` call's count is the number
of bytes the `read` returned, while the post-write comparison is against
`size`.  After the head adjustment `size ≤ n`, so `n - size` matches the
C `n -= size` on ints. -/
def ftfStep (rd wr : Nat → Nat → Int) (i n size0 : Nat) : StepOut :=
  let size := chunk n size0
  let r := rd i size
  if r < 0 then
    .abort [.readDev size r, .msg .stderr (.readErr size n), .msg .stderr (.perror "read()")]
  else
    let got := r.toNat
    let pre : List Ev :=
      .readDev size r ::
        (if r < (size : Int) then [.msg .stderr (.shortRead size got)] else [])
    let w := wr i got
    if w < 0 then
      .abort (pre ++ [.writeFile got w, .msg .stderr (.writeErr size n), .msg .stderr (.perror "write()")])
    else if w ≠ (size : Int) then
      .abort (pre ++ [.writeFile got w, .msg .stderr (.shortWrite w.toNat size)])
    else if 0 < n - size then
      .next (n - size) size (pre ++ [.writeFile got w])
    else
      .done (pre ++ [.writeFile got w])

/-- The `do ... while (n > 0)` loop of `flash_to_file`, iterated from
`ftfStep`.  `fuel` bounds the number of iterations; `none` models
non-termination of the C loop (reachable only from states with a
zero-sized buffer and bytes remaining, which the callers below never
produce).  The overall result is the success flag (`false` means the
`goto fail` path was taken) and the concatenated event trace. -/
def ftfLoop (rd wr : Nat → Nat → Int) : Nat → Nat → Nat → Nat → Option (Bool × List Ev)
  | 0, _, _, _ => none
  | fuel + 1, i, n, size =>
    match ftfStep rd wr i n size with
    | .abort tr => some (false, tr)
    | .done tr => some (true, tr)
    | .next n' size' tr =>
      match ftfLoop rd wr fuel (i + 1) n' size' with
      | none => none
      | some (b, tr') => some (b, tr ++ tr')

/-- `flash_to_file` (lines 110-173): seek the device to `offset`
(`lseekOk` — a mismatched result prints `perror("lseek()")` and returns
1), `creat` the destination (`creatOk`), allocate the staging buffer
with the single-fallback policy of `allocAttempts` starting from the
full length (`int size = len`), run the copy loop, and on success print
`"Copied %zu bytes from address 0x%.8llx in flash to %s"` with `printf`.
All failure paths return 1, the success path returns 0. -/
def flash_to_file (lseekOk creatOk : Bool) (allocOk : Nat → Nat → Bool)
    (rd wr : Nat → Nat → Int) (offset len : Nat) : Option (Nat × List Ev) :=
  if ¬ lseekOk then some (1, [.msg .stderr (.perror "lseek()")])
  else if ¬ creatOk then some (1, [.msg .stderr (.perror "creat()")])
  else
    let a := allocAttempts allocOk len
    match a.2.2 with
    | none => some (1, a.2.1)
    | some size =>
      match ftfLoop rd wr (len + 1) 0 len size with
      | none => none
      | some (false, tr) => some (1, a.2.1 ++ tr)
      | some (true, tr) => some (0, a.2.1 ++ tr ++ [.msg .stdout (.copiedToFile len offset)])

/-- One iteration of the `file_to_flash` copy loop (lines 205-224):

```
if (n <= size) size = n;
if (fread(buf, size, 1, fp) != 1 || ferror(fp)) { fprintf(...); perror("fread()"); ...; return 1; }
err = write(fd, buf, size);
if (err < 0) { fprintf(...); perror("write()"); ...; return 1; }
n -= size;
```

`frd i c` says whether the `fread` of iteration `i` obtained its one
full item of `c` bytes, `wr i c` is the device `write` result.  There is
no comparison of a non-negative `write` result against `size`: the loop
proceeds on any `err >= 0`. -/
def fltStep (frd : Nat → Nat → Bool) (wr : Nat → Nat → Int) (i n size0 : Nat) : StepOut :=
  let size := chunk n size0
  if ¬ frd i size then
    .abort [.freadFile size false, .msg .stderr (.freadErr size n), .msg .stderr (.perror "fread()")]
  else
    let w := wr i size
    if w < 0 then
      .abort [.freadFile size true, .writeDev size w, .msg .stderr (.writeErr size n), .msg .stderr (.perror "write()")]
    else if 0 < n - size then
      .next (n - size) size [.freadFile size true, .writeDev size w]
    else
      .done [.freadFile size true, .writeDev size w]

/-- The `do ... while (n > 0)` loop of `file_to_flash`, iterated from
`fltStep`; fuel as in `ftfLoop`. -/
def fltLoop (frd : Nat → Nat → Bool) (wr : Nat → Nat → Int) :
    Nat → Nat → Nat → Nat → Option (Bool × List Ev)
  | 0, _, _, _ => none
  | fuel + 1, i, n, size =>
    match fltStep frd wr i n size with
    | .abort tr => some (false, tr)
    | .done tr => some (true, tr)
    | .next n' size' tr =>
      match fltLoop frd wr fuel (i + 1) n' size' with
      | none => none
      | some (b, tr') => some (b, tr ++ tr')

/-- `file_to_flash` (lines 175-231): seek the device, `fopen` the source
file (`fopenOk`), allocate the staging buffer with the same
single-fallback policy starting from the full length, run the copy loop,
and on success print `"Copied %d bytes from %s to address 0x%.8llx in
flash"` with `printf`.  All failure paths return 1, success returns 0. -/
def file_to_flash (lseekOk fopenOk : Bool) (allocOk : Nat → Nat → Bool)
    (frd : Nat → Nat → Bool) (wr : Nat → Nat → Int) (offset len : Nat) :
    Option (Nat × List Ev) :=
  if ¬ lseekOk then some (1, [.msg .stderr (.perror "lseek()")])
  else if ¬ fopenOk then some (1, [.msg .stderr (.perror "fopen()")])
  else
    let a := allocAttempts allocOk len
    match a.2.2 with
    | none => some (1, a.2.1)
    | some size =>
      match fltLoop frd wr (len + 1) 0 len size with
      | none => none
      | some (false, tr) => some (1, a.2.1 ++ tr)
      | some (true, tr) => some (0, a.2.1 ++ tr ++ [.msg .stdout (.copiedToFlash len offset)])

/-- `erase_flash` (lines 81-95): issues `MEMERASE` (result `memeraseRes`);
a negative result prints `perror("MEMERASE")` and returns 1; otherwise
the summary `"Erased %d bytes from address 0x%.8x in flash"` is printed
with `fprintf(stderr, ...)` and 0 is returned. -/
def erase_flash (memeraseRes : Int) (offset bytes : Nat) : Nat × List Ev :=
  if memeraseRes < 0 then (1, [.msg .stderr (.perror "MEMERASE")])
  else (0, [.msg .stderr (.erased bytes offset)])

/-- `showinfo` (lines 233-339), reduced to its control flow and result:
`getmeminfo` (the `MEMGETINFO` ioctl, result `memErr`) failing with a
negative result returns 1; `getregions` failing with a negative result
returns 1; otherwise the geometry is rendered (with `printsize`) and 0
is returned. -/
def showinfo (memErr : Int) (cntRes : Int × Int) (q : Nat → Int × Nat × Nat × Nat) : Nat :=
  if memErr < 0 then 1
  else if (getregions cntRes q).1 < 0 then 1
  else 0

/-- The access mode a command opens the device with: `O_RDONLY` or
`O_RDWR` (both with `O_SYNC`). -/
inductive AccessMode where
  | rdonly
  | rdwr
deriving DecidableEq, Repr

/-- Observable façade events: the `open` call with its mode and outcome,
running the delegated component (with the component's return value), the
`close` call, and process termination through `errmsg_die`. -/
inductive FEv where
  | openDev (m : AccessMode) (ok : Bool)
  | opRun (err : Nat)
  | closeDev
  | die
deriving DecidableEq, Repr

/-- Result of one façade command: the process died through `errmsg_die`,
or the function returned `err`; `spin` marks the unreachable fuel
exhaustion of a delegated copy loop.  Each carries the façade events. -/
inductive FRes where
  | died (tr : List FEv)
  | ret (err : Nat) (tr : List FEv)
  | spin
deriving DecidableEq, Repr

/-- `mtd_debug_info` (lines 351-372): resolve the device node
(`findOk` — failure is `errmsg_die`), `open(dev, O_SYNC | O_RDONLY)`
(`openOk` — failure is `errmsg_die`), call `showinfo(fd)` — whose return
value the source discards (`showinfo(fd);` at line 365, `err` stays 0) —
then `close`; a failed close is `errmsg_die`, otherwise `err` (always 0)
is returned. -/
def mtd_debug_info (findOk openOk : Bool) (memErr : Int) (cntRes : Int × Int)
    (q : Nat → Int × Nat × Nat × Nat) (closeOk : Bool) : FRes :=
  if ¬ findOk then .died [.die]
  else if ¬ openOk then .died [.openDev .rdonly false, .die]
  else
    let si := showinfo memErr cntRes q
    if ¬ closeOk then .died [.openDev .rdonly true, .opRun si, .closeDev, .die]
    else .ret 0 [.openDev .rdonly true, .opRun si, .closeDev]

/-- `mtd_debug_read` (lines 374-397): resolve the device node, open with
`O_SYNC | O_RDONLY`, `err = flash_to_file(fd, offset, length, file)`,
then `close`; a failed close is `errmsg_die`, otherwise `err` is
returned. -/
def mtd_debug_read (findOk openOk : Bool) (lseekOk creatOk : Bool)
    (allocOk : Nat → Nat → Bool) (rd wr : Nat → Nat → Int)
    (closeOk : Bool) (offset len : Nat) : FRes :=
  if ¬ findOk then .died [.die]
  else if ¬ openOk then .died [.openDev .rdonly false, .die]
  else
    match flash_to_file lseekOk creatOk allocOk rd wr offset len with
    | none => .spin
    | some (err, _) =>
      if ¬ closeOk then .died [.openDev .rdonly true, .opRun err, .closeDev, .die]
      else .ret err [.openDev .rdonly true, .opRun err, .closeDev]

/-- `mtd_debug_write` (lines 399-422): resolve the device node, open with
`O_SYNC | O_RDWR`, `err = file_to_flash(fd, offset, length, file)`, then
`close`; a failed close is `errmsg_die`, otherwise `err` is returned. -/
def mtd_debug_write (findOk openOk : Bool) (lseekOk fopenOk : Bool)
    (allocOk : Nat → Nat → Bool) (frd : Nat → Nat → Bool) (wr : Nat → Nat → Int)
    (closeOk : Bool) (offset len : Nat) : FRes :=
  if ¬ findOk then .died [.die]
  else if ¬ openOk then .died [.openDev .rdwr false, .die]
  else
    match file_to_flash lseekOk fopenOk allocOk frd wr offset len with
    | none => .spin
    | some (err, _) =>
      if ¬ closeOk then .died [.openDev .rdwr true, .opRun err, .closeDev, .die]
      else .ret err [.openDev .rdwr true, .opRun err, .closeDev]

/-- `mtd_debug_erase` (lines 424-447): resolve the device node, open with
`O_SYNC | O_RDWR`, `err = erase_flash(fd, offset, length)`, then
`close`; a failed close is `errmsg_die`, otherwise `err` is returned. -/
def mtd_debug_erase (findOk openOk : Bool) (memeraseRes : Int)
    (closeOk : Bool) (offset len : Nat) : FRes :=
  if ¬ findOk then .died [.die]
  else if ¬ openOk then .died [.openDev .rdwr false, .die]
  else
    let e := erase_flash memeraseRes offset len
    if ¬ closeOk then .died [.openDev .rdwr true, .opRun e.1, .closeDev, .die]
    else .ret e.1 [.openDev .rdwr true, .opRun e.1, .closeDev]

/-- The façade events of a `FRes`. -/
def FRes.tr : FRes → List FEv
  | .died t => t
  | .ret _ t => t
  | .spin => []

/-! ### Helper lemmas -/

theorem scaleLoopGo_stop (fuel x i : Nat) (h : x < 1024) : scaleLoopGo fuel x i = (x, i) := by
  cases fuel with
  | zero => rfl
  | succ f => simp [scaleLoopGo, Nat.not_le.2 h]

theorem scaleLoopGo_step (fuel x i : Nat) (h : 1024 ≤ x) :
    scaleLoopGo (fuel + 1) x i = scaleLoopGo fuel (x / 1024) (i + 1) := by
  simp [scaleLoopGo, h]

/-- C8: for every 32-bit size value `x`, `printsize` prints the raw byte
count and, exactly when `x >= 1024`, a parenthesized value obtained by
repeatedly dividing by 1024 while `>= 1024`, with the suffix chosen from
"KMGT" at the point the loop stops; in particular 512 and 0 render with
no suffix, 2048 renders as 2 with suffix K, and 1048576 as 1 with
suffix M. -/
theorem printsize_human_scaling_C8 :
    (∀ x : Nat, x < 2 ^ 32 →
      (printsize x).1 = x ∧
      ((printsize x).2 = none ↔ x < 1024) ∧
      (1024 ≤ x →
        ∃ k, 0 < k ∧
          (printsize x).2 = some (x / 1024 ^ k, sizeFlags.getD (k - 1) ' ') ∧
          x / 1024 ^ k < 1024 ∧ ∀ j < k, 1024 ≤ x / 1024 ^ j)) ∧
    printsize 512 = (512, none) ∧
    printsize 2048 = (2048, some (2, 'K')) ∧
    printsize 1048576 = (1048576, some (1, 'M')) ∧
    printsize 0 = (0, none) := by
  refine ⟨?_, by decide, by decide, by decide, by decide⟩
  intro x hx
  by_cases h1 : x < 1024
  · have e : scaleLoop x = (x, 0) := scaleLoopGo_stop 4 x 0 h1
    refine ⟨by simp [printsize, e], by simp [printsize, e, h1], fun hc => absurd hc (by omega)⟩
  · push_neg at h1
    by_cases h2 : x < 1048576
    · have b1 : x / 1024 < 1024 := by
        rw [Nat.div_lt_iff_lt_mul (by norm_num)]; omega
      have e : scaleLoop x = (x / 1024, 1) := by
        calc scaleLoop x = scaleLoopGo 3 (x / 1024) 1 := scaleLoopGo_step 3 x 0 h1
          _ = (x / 1024, 1) := scaleLoopGo_stop 3 _ 1 b1
      refine ⟨by simp [printsize, e], by simp [printsize, e]; omega, fun _ => ?_⟩
      refine ⟨1, Nat.one_pos, by simp [printsize, e, sizeFlags], by simpa using b1, ?_⟩
      intro j hj
      interval_cases j
      simpa using h1
    · push_neg at h2
      by_cases h3 : x < 1073741824
      · have g1 : 1024 ≤ x / 1024 := by
          rw [Nat.le_div_iff_mul_le (by norm_num)]; omega
        have b2 : x / 1024 / 1024 < 1024 := by
          rw [Nat.div_div_eq_div_mul, Nat.div_lt_iff_lt_mul (by norm_num)]; omega
        have e : scaleLoop x = (x / 1024 / 1024, 2) := by
          calc scaleLoop x = scaleLoopGo 3 (x / 1024) 1 := scaleLoopGo_step 3 x 0 h1
            _ = scaleLoopGo 2 (x / 1024 / 1024) 2 := scaleLoopGo_step 2 _ 1 g1
            _ = (x / 1024 / 1024, 2) := scaleLoopGo_stop 2 _ 2 b2
        have d2 : x / 1024 / 1024 = x / 1024 ^ 2 := by
          rw [Nat.div_div_eq_div_mul, pow_two]
        refine ⟨by simp [printsize, e], by simp [printsize, e]; omega, fun _ => ?_⟩
        refine ⟨2, by norm_num, by simp [printsize, e, sizeFlags, d2], by rw [← d2]; exact b2, ?_⟩
        intro j hj
        interval_cases j
        · simpa using h1
        · simpa using g1
      · push_neg at h3
        have g1 : 1024 ≤ x / 1024 := by
          rw [Nat.le_div_iff_mul_le (by norm_num)]; omega
        have g2 : 1024 ≤ x / 1024 / 1024 := by
          rw [Nat.div_div_eq_div_mul, Nat.le_div_iff_mul_le (by norm_num)]; omega
        have b3 : x / 1024 / 1024 / 1024 < 1024 := by
          rw [Nat.div_div_eq_div_mul, Nat.div_div_eq_div_mul,
            Nat.div_lt_iff_lt_mul (by norm_num)]
          omega
        have e : scaleLoop x = (x / 1024 / 1024 / 1024, 3) := by
          calc scaleLoop x = scaleLoopGo 3 (x / 1024) 1 := scaleLoopGo_step 3 x 0 h1
            _ = scaleLoopGo 2 (x / 1024 / 1024) 2 := scaleLoopGo_step 2 _ 1 g1
            _ = scaleLoopGo 1 (x / 1024 / 1024 / 1024) 3 := scaleLoopGo_step 1 _ 2 g2
            _ = (x / 1024 / 1024 / 1024, 3) := scaleLoopGo_stop 1 _ 3 b3
        have d3 : x / 1024 / 1024 / 1024 = x / 1024 ^ 3 := by
          rw [Nat.div_div_eq_div_mul, Nat.div_div_eq_div_mul]
          norm_num
        refine ⟨by simp [printsize, e], by simp [printsize, e]; omega, fun _ => ?_⟩
        refine ⟨3, by norm_num, by simp [printsize, e, sizeFlags, d3], by rw [← d3]; exact b3, ?_⟩
        intro j hj
        interval_cases j
        · simpa using h1
        · simpa using g1
        · have : x / 1024 ^ 2 = x / 1024 / 1024 := by rw [Nat.div_div_eq_div_mul, pow_two]
          rw [this]; exact g2

/-- Witness for C8 at a concrete 32-bit input exercising the scaled
branch. -/
theorem printsize_human_scaling_C8_witness :
    (printsize 5000000).1 = 5000000 ∧ ((printsize 5000000).2 = none ↔ 5000000 < 1024) :=
  ⟨(printsize_human_scaling_C8.1 5000000 (by norm_num)).1,
   (printsize_human_scaling_C8.1 5000000 (by norm_num)).2.1⟩

theorem getregionsLoop_all_ok (q : Nat → Int × Nat × Nat × Nat) :
    ∀ (rem i : Nat), (∀ k, k < rem → (q (i + k)).1 = 0) →
      (getregionsLoop q i rem).1 = 0 ∧
      (getregionsLoop q i rem).2.1.length = rem ∧
      (getregionsLoop q i rem).2.2 = (List.range' i rem).map Query.region ∧
      (getregionsLoop q i rem).2.1.map RegionInfo.regionindex = List.range' i rem := by
  intro rem
  induction rem with
  | zero => intro i _; exact ⟨rfl, rfl, rfl, rfl⟩
  | succ r ih =>
    intro i hq
    have h0 : (q i).1 = 0 := by simpa using hq 0 (Nat.succ_pos r)
    have ihs := ih (i + 1) (fun k hk => by
      have := hq (k + 1) (by omega)
      simpa [Nat.add_assoc, Nat.add_comm 1 k] using this)
    have e : getregionsLoop q i (r + 1) =
        ((getregionsLoop q (i + 1) r).1,
         ⟨(q i).2.1, (q i).2.2.1, (q i).2.2.2, i⟩ :: (getregionsLoop q (i + 1) r).2.1,
         .region i :: (getregionsLoop q (i + 1) r).2.2) := by
      simp [getregionsLoop, h0]
    refine ⟨by rw [e]; exact ihs.1, by simp [e, ihs.2.1], ?_, ?_⟩
    · rw [e, List.range'_succ]
      simp [ihs.2.2.1]
    · rw [e, List.range'_succ]
      simp [ihs.2.2.2]

/-- C6: region enumeration issues the count query first; a failing count
query issues no per-region queries; a reported count of 0 yields an
empty sequence with no per-region queries; a reported count N>0 with
succeeding per-region queries yields exactly N per-region queries (for
indices 0..N-1 in order) and N `RegionInfo` values whose `regionindex`
equals their 0-based position in the sequence. -/
theorem getregions_enumeration_C6 :
    ∀ (cntRes : Int × Int) (q : Nat → Int × Nat × Nat × Nat),
      (cntRes.1 ≠ 0 → getregions cntRes q = (cntRes.1, [], [.count])) ∧
      (cntRes.1 = 0 → cntRes.2 = 0 → getregions cntRes q = (0, [], [.count])) ∧
      (∀ N : Nat, cntRes.1 = 0 → cntRes.2 = N → 0 < N → (∀ k, k < N → (q k).1 = 0) →
        (getregions cntRes q).1 = 0 ∧
        (getregions cntRes q).2.1.length = N ∧
        (getregions cntRes q).2.2 = .count :: (List.range' 0 N).map Query.region ∧
        (getregions cntRes q).2.1.map RegionInfo.regionindex = List.range' 0 N) := by
  intro cntRes q
  refine ⟨fun h => by simp [getregions, h], fun h h0 => by simp [getregions, h, h0, getregionsLoop], ?_⟩
  intro N h hN _ hq
  have hl := getregionsLoop_all_ok q N 0 (fun k hk => by simpa using hq k hk)
  have ht : cntRes.2.toNat = N := by rw [hN]; simp
  refine ⟨?_, ?_, ?_, ?_⟩ <;> simp [getregions, h, ht, hl.1, hl.2.1, hl.2.2.1, hl.2.2.2]

/-- Witness for C6 with a two-region device whose queries all succeed. -/
theorem getregions_enumeration_C6_witness :
    (getregions (0, 2) (fun i => (0, 4096 * i, 4096, 16))).1 = 0 ∧
    (getregions (0, 2) (fun i => (0, 4096 * i, 4096, 16))).2.1.length = 2 ∧
    (getregions (0, 2) (fun i => (0, 4096 * i, 4096, 16))).2.2 =
      .count :: (List.range' 0 2).map Query.region ∧
    (getregions (0, 2) (fun i => (0, 4096 * i, 4096, 16))).2.1.map RegionInfo.regionindex =
      List.range' 0 2 :=
  (getregions_enumeration_C6 (0, 2) (fun i => (0, 4096 * i, 4096, 16))).2.2 2
    rfl rfl (by decide) (by decide)

/-- Counterexample to C3 as stated: with every allocation made to fail
and a transfer length of exactly 64 KiB, only one allocation (of 65536
bytes) is attempted — the claimed fallback allocation of 64 KiB never
happens, because the `size != BUF_SIZE` guard already fails. -/
theorem allocAttempts_C3_counterexample :
    allocAttempts (fun _ _ => false) 65536 =
      ([65536],
       [.msg .stderr (.mallocFail 65536), .msg .stderr (.perror "malloc()")],
       none) := by
  decide

/-- C3 as amended: in either direction the staging buffer is first
requested at the full length L; if that fails and L is not already
64 KiB, exactly one fallback allocation of exactly 64 KiB is attempted
and the operation fails out of memory exactly when it fails too; if L is
already 64 KiB the single failed attempt fails the operation at once
with no fallback; no size other than L and 64 KiB is ever requested;
and a total allocation failure fails the whole transfer (result 1) in
both directions. -/
theorem allocAttempts_policy_C3_amended :
    ∀ (allocOk : Nat → Nat → Bool) (L : Nat),
      (allocAttempts allocOk L).1.head? = some L ∧
      (allocOk 0 L = true → allocAttempts allocOk L = ([L], [], some L)) ∧
      (allocOk 0 L = false → L ≠ bufSize →
        (allocAttempts allocOk L).1 = [L, bufSize] ∧
        (allocAttempts allocOk L).2.2 =
          (if allocOk 1 bufSize then some bufSize else none)) ∧
      (allocOk 0 L = false → L = bufSize →
        (allocAttempts allocOk L).1 = [L] ∧ (allocAttempts allocOk L).2.2 = none) ∧
      (∀ s ∈ (allocAttempts allocOk L).1, s = L ∨ s = bufSize) ∧
      ((allocAttempts allocOk L).2.2 = none →
        (∀ rd wr offset, flash_to_file true true allocOk rd wr offset L =
          some (1, (allocAttempts allocOk L).2.1)) ∧
        (∀ frd wr offset, file_to_flash true true allocOk frd wr offset L =
          some (1, (allocAttempts allocOk L).2.1))) := by
  intro allocOk L
  refine ⟨?_, ?_, ?_, ?_, ?_, ?_⟩
  · by_cases h0 : allocOk 0 L <;> by_cases hb : L = bufSize <;>
      simp [allocAttempts, h0, hb] <;> split <;> simp
  · intro h0; simp [allocAttempts, h0]
  · intro h0 hb
    by_cases h1 : allocOk 1 bufSize <;> simp [allocAttempts, h0, hb, h1]
  · intro h0 hb; subst hb; simp [allocAttempts, h0]
  · by_cases h0 : allocOk 0 L
    · simp [allocAttempts, h0]
    · by_cases hb : L = bufSize
      · subst hb; simp [allocAttempts, h0]
      · by_cases h1 : allocOk 1 bufSize <;> simp [allocAttempts, h0, hb, h1]
  · intro hnone
    exact ⟨fun rd wr offset => by simp [flash_to_file, hnone],
           fun frd wr offset => by simp [file_to_flash, hnone]⟩

/-- Witness for C3 (amended) with the primary allocation of a 1 MiB
length made to fail and the fallback succeeding. -/
theorem allocAttempts_policy_C3_amended_witness :
    (allocAttempts (fun a _ => a == 1) 1048576).1 = [1048576, bufSize] ∧
    (allocAttempts (fun a _ => a == 1) 1048576).2.2 =
      (if (fun (a _ : Nat) => a == 1) 1 bufSize then some bufSize else none) :=
  (allocAttempts_policy_C3_amended (fun a _ => a == 1) 1048576).2.2.1
    (by decide) (by decide)

/-- Counterexample to C5 as stated: a successful erase prints its
summary of bytes erased and start address on the standard error stream
(`fprintf(stderr, "Erased %d bytes from address 0x%.8x in flash\n", ...)`),
and its trace contains no standard-output event at all. -/
theorem erase_flash_C5_counterexample :
    erase_flash 0 65536 65536 = (0, [.msg .stderr (.erased 65536 65536)]) ∧
    (erase_flash 0 65536 65536).2.filter
      (fun e => match e with | .msg .stdout _ => true | _ => false) = [] := by
  decide

/-- C5 as amended: the successful read and write copy operations write
their one-line confirmation summary to standard output (as the last
event of their trace), and errors go to the standard error stream; the
successful erase, however, writes its bytes-erased/start-address summary
to standard error, the diagnostic stream, and a failed erase prints its
error there too. -/
theorem output_streams_C5_amended :
    (∀ (memeraseRes : Int) (offset bytes : Nat),
      (0 ≤ memeraseRes →
        erase_flash memeraseRes offset bytes = (0, [.msg .stderr (.erased bytes offset)])) ∧
      (memeraseRes < 0 →
        erase_flash memeraseRes offset bytes = (1, [.msg .stderr (.perror "MEMERASE")]))) ∧
    (∀ lseekOk creatOk allocOk rd wr offset len tr,
      flash_to_file lseekOk creatOk allocOk rd wr offset len = some (0, tr) →
      ∃ t, tr = t ++ [.msg .stdout (.copiedToFile len offset)]) ∧
    (∀ lseekOk fopenOk allocOk frd wr offset len tr,
      file_to_flash lseekOk fopenOk allocOk frd wr offset len = some (0, tr) →
      ∃ t, tr = t ++ [.msg .stdout (.copiedToFlash len offset)]) := by
  refine ⟨?_, ?_, ?_⟩
  · intro memeraseRes offset bytes
    exact ⟨fun h => by simp [erase_flash, Int.not_lt.2 h],
           fun h => by simp [erase_flash, h]⟩
  · intro lseekOk creatOk allocOk rd wr offset len tr h
    by_cases hl : lseekOk
    · by_cases hc : creatOk
      · cases ha : (allocAttempts allocOk len).2.2 with
        | none => simp [flash_to_file, hl, hc, ha] at h
        | some size =>
          cases hloop : ftfLoop rd wr (len + 1) 0 len size with
          | none => simp [flash_to_file, hl, hc, ha, hloop] at h
          | some p =>
            cases p with
            | mk b tr' =>
              cases b with
              | false => simp [flash_to_file, hl, hc, ha, hloop] at h
              | true =>
                simp [flash_to_file, hl, hc, ha, hloop] at h
                exact ⟨(allocAttempts allocOk len).2.1 ++ tr', by rw [← h]; simp⟩
      · simp [flash_to_file, hl, hc] at h
    · simp [flash_to_file, hl] at h
  · intro lseekOk fopenOk allocOk frd wr offset len tr h
    by_cases hl : lseekOk
    · by_cases hc : fopenOk
      · cases ha : (allocAttempts allocOk len).2.2 with
        | none => simp [file_to_flash, hl, hc, ha] at h
        | some size =>
          cases hloop : fltLoop frd wr (len + 1) 0 len size with
          | none => simp [file_to_flash, hl, hc, ha, hloop] at h
          | some p =>
            cases p with
            | mk b tr' =>
              cases b with
              | false => simp [file_to_flash, hl, hc, ha, hloop] at h
              | true =>
                simp [file_to_flash, hl, hc, ha, hloop] at h
                exact ⟨(allocAttempts allocOk len).2.1 ++ tr', by rw [← h]; simp⟩
      · simp [file_to_flash, hl, hc] at h
    · simp [file_to_flash, hl] at h

/-- Witness for C5 (amended): a concrete successful erase and a concrete
successful one-chunk read-out. -/
theorem output_streams_C5_amended_witness :
    erase_flash 0 4096 8192 = (0, [.msg .stderr (.erased 8192 4096)]) ∧
    ∃ t, [Ev.readDev 4 4, Ev.writeFile 4 4, Ev.msg .stdout (.copiedToFile 4 16)] =
      t ++ [Ev.msg .stdout (.copiedToFile 4 16)] :=
  ⟨(output_streams_C5_amended.1 0 4096 8192).1 (by decide),
   output_streams_C5_amended.2.1 true true (fun _ _ => true) (fun _ c => (c : Int))
     (fun _ c => (c : Int)) 16 4 _ (by decide)⟩

/-- C4 evidence: with a device whose `MEMGETINFO` ioctl fails (result
-1), `showinfo` returns the failure result 1, yet `mtd_debug_info`
discards it (line 365 calls `showinfo(fd);` without capturing the
result) and returns 0, reporting success to its caller. -/
theorem mtd_debug_info_ignores_query_failure_C4 :
    showinfo (-1) (0, 0) (fun _ => (0, 0, 0, 0)) = 1 ∧
    mtd_debug_info true true (-1) (0, 0) (fun _ => (0, 0, 0, 0)) true =
      .ret 0 [.openDev .rdonly true, .opRun 1, .closeDev] := by
  decide

theorem ftfLoop_shortWrite_terminal (rd wr : Nat → Nat → Int) :
    ∀ (fuel i n size : Nat) (b : Bool) (tr : List Ev),
      ftfLoop rd wr fuel i n size = some (b, tr) →
      ∀ g s, Ev.msg .stderr (.shortWrite g s) ∈ tr →
        b = false ∧ ∃ t, tr = t ++ [Ev.msg .stderr (.shortWrite g s)] := by
  intro fuel
  induction fuel with
  | zero => intro i n size b tr h; simp [ftfLoop] at h
  | succ f ih =>
    intro i n size b tr h g s hmem
    rw [ftfLoop] at h
    cases hstep : ftfStep rd wr i n size with
    | abort t =>
      rw [hstep] at h
      simp only [Option.some.injEq, Prod.mk.injEq] at h
      obtain ⟨hb, htr⟩ := h
      subst hb htr
      simp only [ftfStep] at hstep
      split_ifs at hstep with h1 h2 h3 h4 <;>
        simp only [StepOut.abort.injEq] at hstep <;>
        subst hstep <;>
        simp at hmem
      · obtain ⟨hg, hs⟩ := hmem
        subst hg hs
        exact ⟨rfl, [Ev.readDev (chunk n size) (rd i (chunk n size)),
          Ev.msg .stderr (.shortRead (chunk n size) (rd i (chunk n size)).toNat),
          Ev.writeFile (rd i (chunk n size)).toNat (wr i (rd i (chunk n size)).toNat)], by simp⟩
      · obtain ⟨hg, hs⟩ := hmem
        subst hg hs
        exact ⟨rfl, [Ev.readDev (chunk n size) (rd i (chunk n size)),
          Ev.writeFile (rd i (chunk n size)).toNat (wr i (rd i (chunk n size)).toNat)], by simp⟩
    | done t =>
      rw [hstep] at h
      simp only [Option.some.injEq, Prod.mk.injEq] at h
      obtain ⟨hb, htr⟩ := h
      subst hb htr
      simp only [ftfStep] at hstep
      split_ifs at hstep <;> simp at hstep <;> subst hstep <;> simp at hmem
    | next n' s' t =>
      rw [hstep] at h
      dsimp only at h
      cases hrec : ftfLoop rd wr f (i + 1) n' s' with
      | none => rw [hrec] at h; simp at h
      | some p =>
        obtain ⟨b', tr'⟩ := p
        rw [hrec] at h
        simp only [Option.some.injEq, Prod.mk.injEq] at h
        obtain ⟨hb, htr⟩ := h
        subst hb htr
        rw [List.mem_append] at hmem
        cases hmem with
        | inl hm =>
          exfalso
          simp only [ftfStep] at hstep
          split_ifs at hstep <;> simp at hstep <;>
            (obtain ⟨_, _, htr3⟩ := hstep; subst htr3; simp at hm)
        | inr hm =>
          obtain ⟨hb', t2, ht2⟩ := ih (i + 1) n' s' b' tr' hrec g s hm
          exact ⟨hb', t ++ t2, by rw [ht2]; simp⟩

theorem allocAttempts_msgs_classified :
    ∀ (allocOk : Nat → Nat → Bool) (L : Nat) (e : Ev), e ∈ (allocAttempts allocOk L).2.1 →
      (∃ s, e = Ev.msg .stderr (.mallocFail s)) ∨ (∃ s, e = Ev.msg .stderr (.tryBufSize s)) ∨
        e = Ev.msg .stderr (.perror "malloc()") := by
  intro allocOk L e he
  unfold allocAttempts at he
  split_ifs at he <;> simp at he <;>
    first
      | (rcases he with h | h | h | h <;> simp [h])
      | (rcases he with h | h <;> simp [h])

/-- Counterexample to C1 as stated: in the file-to-device direction a
device `write` that reports writing 1 of the 2 requested bytes is not
detected — the transfer completes with success (0) and its confirmation
summary, with no short-write error and no abort. -/
theorem file_to_flash_C1_counterexample :
    file_to_flash true true (fun _ _ => true) (fun _ _ => true)
      (fun _ c => (c : Int) - 1) 0 2 =
      some (0, [.freadFile 2 true, .writeDev 2 1, .msg .stdout (.copiedToFlash 2 0)]) := by
  decide

/-- C1 as amended: in the device-to-file direction a file write call
that transfers other than the requested chunk is a hard error aborting
the transfer — the short-write diagnostic is the final event, so nothing
further (in particular no further write) happens; in the file-to-device
direction, however, a short device write is not detected: the loop body
aborts only when the `fread` fails or the device `write` returns a
negative result. -/
theorem short_write_handling_C1_amended :
    (∀ lseekOk creatOk allocOk rd wr offset len code tr,
      flash_to_file lseekOk creatOk allocOk rd wr offset len = some (code, tr) →
      ∀ g s, Ev.msg .stderr (.shortWrite g s) ∈ tr →
        code = 1 ∧ ∃ t, tr = t ++ [Ev.msg .stderr (.shortWrite g s)]) ∧
    (∀ frd wr i n size t, fltStep frd wr i n size = .abort t →
      frd i (chunk n size) = false ∨ wr i (chunk n size) < 0) := by
  constructor
  · intro lseekOk creatOk allocOk rd wr offset len code tr h g s hmem
    by_cases hl : lseekOk
    · by_cases hc : creatOk
      · cases ha : (allocAttempts allocOk len).2.2 with
        | none =>
          simp [flash_to_file, hl, hc, ha] at h
          obtain ⟨hcode, htr⟩ := h
          subst htr
          have hcl := allocAttempts_msgs_classified allocOk len
            (Ev.msg .stderr (.shortWrite g s)) hmem
          rcases hcl with ⟨x, hx⟩ | ⟨x, hx⟩ | hx <;> simp at hx
        | some size =>
          cases hloop : ftfLoop rd wr (len + 1) 0 len size with
          | none => simp [flash_to_file, hl, hc, ha, hloop] at h
          | some p =>
            obtain ⟨b, tr'⟩ := p
            have hterm := ftfLoop_shortWrite_terminal rd wr (len + 1) 0 len size b tr' hloop g s
            cases b with
            | false =>
              simp [flash_to_file, hl, hc, ha, hloop] at h
              obtain ⟨hcode, htr⟩ := h
              subst htr
              rw [List.mem_append] at hmem
              cases hmem with
              | inl hm =>
                have hcl := allocAttempts_msgs_classified allocOk len
                  (Ev.msg .stderr (.shortWrite g s)) hm
                rcases hcl with ⟨x, hx⟩ | ⟨x, hx⟩ | hx <;> simp at hx
              | inr hm =>
                obtain ⟨_, t2, ht2⟩ := hterm hm
                exact ⟨by omega, (allocAttempts allocOk len).2.1 ++ t2, by rw [ht2]; simp⟩
            | true =>
              simp [flash_to_file, hl, hc, ha, hloop] at h
              obtain ⟨hcode, htr⟩ := h
              subst htr
              simp only [List.mem_append] at hmem
              rcases hmem with hm | hm | hm
              · have hcl := allocAttempts_msgs_classified allocOk len
                  (Ev.msg .stderr (.shortWrite g s)) hm
                rcases hcl with ⟨x, hx⟩ | ⟨x, hx⟩ | hx <;> simp at hx
              · exact absurd (hterm hm).1 (by simp)
              · simp at hm
      · simp [flash_to_file, hl, hc] at h
        obtain ⟨hcode, htr⟩ := h
        subst htr
        simp at hmem
    · simp [flash_to_file, hl] at h
      obtain ⟨hcode, htr⟩ := h
      subst htr
      simp at hmem
  · intro frd wr i n size t h
    simp only [fltStep] at h
    split_ifs at h with h1 h2 h3 <;>
      first
        | exact Or.inr (by assumption)
        | exact Or.inl (by simpa using h1)

/-- Witness for C1 (amended): a concrete read-out whose file write
reports 3 of 4 bytes; the transfer aborts with the short-write
diagnostic as its final event. -/
theorem short_write_handling_C1_amended_witness :
    (1 : Nat) = 1 ∧
    ∃ t, [Ev.readDev 4 4, Ev.writeFile 4 3, Ev.msg .stderr (.shortWrite 3 4)] =
      t ++ [Ev.msg .stderr (.shortWrite 3 4)] :=
  short_write_handling_C1_amended.1 true true (fun _ _ => true) (fun _ c => (c : Int))
    (fun _ c => (c : Int) - 1) 0 4 1
    [Ev.readDev 4 4, Ev.writeFile 4 3, Ev.msg .stderr (.shortWrite 3 4)]
    (by decide) 3 4 (by decide)

theorem ftfLoop_shortRead_aborts (rd wr : Nat → Nat → Int)
    (hw : ∀ k c, wr k c ≤ (c : Int)) :
    ∀ (fuel i n size : Nat) (b : Bool) (tr : List Ev),
      ftfLoop rd wr fuel i n size = some (b, tr) →
      ∀ s g, Ev.msg .stderr (.shortRead s g) ∈ tr →
        b = false ∧ ∃ t1 t2, tr = t1 ++ Ev.msg .stderr (.shortRead s g) :: t2 ∧
          ∀ c r, Ev.readDev c r ∉ t2 := by
  intro fuel
  induction fuel with
  | zero => intro i n size b tr h; simp [ftfLoop] at h
  | succ f ih =>
    intro i n size b tr h s g hmem
    rw [ftfLoop] at h
    cases hstep : ftfStep rd wr i n size with
    | abort t =>
      rw [hstep] at h
      simp only [Option.some.injEq, Prod.mk.injEq] at h
      obtain ⟨hb, htr⟩ := h
      subst hb htr
      simp only [ftfStep] at hstep
      split_ifs at hstep with h1 h2 h3 h4 <;>
        simp only [StepOut.abort.injEq] at hstep <;>
        subst hstep <;>
        simp at hmem
      · obtain ⟨hs, hg⟩ := hmem
        subst hs hg
        exact ⟨rfl, [Ev.readDev (chunk n size) (rd i (chunk n size))],
          [Ev.writeFile (rd i (chunk n size)).toNat (wr i (rd i (chunk n size)).toNat),
           Ev.msg .stderr (.writeErr (chunk n size) n), Ev.msg .stderr (.perror "write()")],
          by simp, by simp⟩
      · obtain ⟨hs, hg⟩ := hmem
        subst hs hg
        exact ⟨rfl, [Ev.readDev (chunk n size) (rd i (chunk n size))],
          [Ev.writeFile (rd i (chunk n size)).toNat (wr i (rd i (chunk n size)).toNat),
           Ev.msg .stderr (.shortWrite (wr i (rd i (chunk n size)).toNat).toNat (chunk n size))],
          by simp, by simp⟩
    | done t =>
      rw [hstep] at h
      simp only [Option.some.injEq, Prod.mk.injEq] at h
      obtain ⟨hb, htr⟩ := h
      subst hb htr
      exfalso
      simp only [ftfStep] at hstep
      split_ifs at hstep with h1 h3 h4 <;> simp only [StepOut.done.injEq] at hstep <;>
        subst hstep <;> simp at hmem
      · obtain ⟨hs, hg⟩ := hmem
        have hle := hw i (rd i (chunk n size)).toNat
        rw [Int.toNat_of_nonneg (by omega)] at hle
        omega
    | next n' s' t =>
      rw [hstep] at h
      dsimp only at h
      cases hrec : ftfLoop rd wr f (i + 1) n' s' with
      | none => rw [hrec] at h; simp at h
      | some p =>
        obtain ⟨b', tr'⟩ := p
        rw [hrec] at h
        simp only [Option.some.injEq, Prod.mk.injEq] at h
        obtain ⟨hb, htr⟩ := h
        subst hb htr
        rw [List.mem_append] at hmem
        cases hmem with
        | inl hm =>
          exfalso
          simp only [ftfStep] at hstep
          split_ifs at hstep with h1 h3 h4 <;> simp at hstep
          · obtain ⟨_, _, htr3⟩ := hstep
            subst htr3
            simp at hm
            obtain ⟨hs, hg⟩ := hm
            have hle := hw i (rd i (chunk n size)).toNat
            rw [Int.toNat_of_nonneg (by omega)] at hle
            omega
          · obtain ⟨_, _, htr3⟩ := hstep
            subst htr3
            simp at hm
        | inr hm =>
          obtain ⟨hb', t1, t2, ht2, hnr⟩ := ih (i + 1) n' s' b' tr' hrec s g hm
          exact ⟨hb', t ++ t1, t2, by rw [ht2]; simp, hnr⟩

theorem ftfStep_shortRead_abort (rd wr : Nat → Nat → Int) (i n size0 : Nat)
    (h0 : 0 ≤ rd i (chunk n size0)) (hlt : rd i (chunk n size0) < (chunk n size0 : Int))
    (hw : ∀ c : Nat, wr i c ≤ (c : Int)) :
    ∃ t, ftfStep rd wr i n size0 = .abort t ∧
      Ev.msg .stderr (.shortRead (chunk n size0) (rd i (chunk n size0)).toNat) ∈ t := by
  have hne : ¬ rd i (chunk n size0) < 0 := by omega
  have hlt' : (rd i (chunk n size0)).toNat < chunk n size0 := by omega
  have hwle := hw (rd i (chunk n size0)).toNat
  by_cases hwneg : wr i (rd i (chunk n size0)).toNat < 0
  · exact ⟨[Ev.readDev (chunk n size0) (rd i (chunk n size0)),
      Ev.msg .stderr (.shortRead (chunk n size0) (rd i (chunk n size0)).toNat),
      Ev.writeFile (rd i (chunk n size0)).toNat (wr i (rd i (chunk n size0)).toNat),
      Ev.msg .stderr (.writeErr (chunk n size0) n), Ev.msg .stderr (.perror "write()")],
      by simp [ftfStep, hne, hlt, hwneg], by simp⟩
  · have hwne : wr i (rd i (chunk n size0)).toNat ≠ (chunk n size0 : Int) := by omega
    exact ⟨[Ev.readDev (chunk n size0) (rd i (chunk n size0)),
      Ev.msg .stderr (.shortRead (chunk n size0) (rd i (chunk n size0)).toNat),
      Ev.writeFile (rd i (chunk n size0)).toNat (wr i (rd i (chunk n size0)).toNat),
      Ev.msg .stderr (.shortWrite (wr i (rd i (chunk n size0)).toNat).toNat (chunk n size0))],
      by simp [ftfStep, hne, hlt, hwneg, hwne], by simp⟩

/-- Counterexample to C2 as stated: a device read of 2 of the 4
requested bytes does not let the loop continue with the remaining count
decremented by 4 (which would complete the transfer with result 0);
after the short-read diagnostic, the written bytes fail the post-write
comparison against the requested size and the transfer aborts with
result 1 after a single read call. -/
theorem flash_to_file_C2_counterexample :
    flash_to_file true true (fun _ _ => true) (fun _ _ => 2) (fun _ c => (c : Int)) 0 4 =
      some (1, [Ev.readDev 4 2, Ev.msg .stderr (.shortRead 4 2), Ev.writeFile 2 2,
                Ev.msg .stderr (.shortWrite 2 4)]) := by
  decide

/-- C2 as amended: in the device-to-file copy loop a device read that
returns fewer bytes than the requested chunk (with a destination write
obeying the POSIX bound of never writing more than asked) makes the
iteration log the short-read diagnostic and abort; at the whole-transfer
level, whenever a short-read diagnostic appears in the trace the
transfer fails with result 1 and no further device read follows the
diagnostic — the read is not retried and the loop never continues past
a short read. -/
theorem short_read_handling_C2_amended :
    (∀ (rd wr : Nat → Nat → Int) (i n size0 : Nat),
      0 ≤ rd i (chunk n size0) → rd i (chunk n size0) < (chunk n size0 : Int) →
      (∀ c, wr i c ≤ (c : Int)) →
      ∃ t, ftfStep rd wr i n size0 = .abort t ∧
        Ev.msg .stderr (.shortRead (chunk n size0) (rd i (chunk n size0)).toNat) ∈ t) ∧
    (∀ lseekOk creatOk allocOk rd wr offset len code tr,
      (∀ (k c : Nat), wr k c ≤ (c : Int)) →
      flash_to_file lseekOk creatOk allocOk rd wr offset len = some (code, tr) →
      ∀ s g, Ev.msg .stderr (.shortRead s g) ∈ tr →
        code = 1 ∧ ∃ t1 t2, tr = t1 ++ Ev.msg .stderr (.shortRead s g) :: t2 ∧
          ∀ c r, Ev.readDev c r ∉ t2) := by
  constructor
  · exact fun rd wr i n size0 h0 hlt hw => ftfStep_shortRead_abort rd wr i n size0 h0 hlt hw
  · intro lseekOk creatOk allocOk rd wr offset len code tr hw h s g hmem
    by_cases hl : lseekOk
    · by_cases hc : creatOk
      · cases ha : (allocAttempts allocOk len).2.2 with
        | none =>
          simp [flash_to_file, hl, hc, ha] at h
          obtain ⟨hcode, htr⟩ := h
          subst htr
          have hcl := allocAttempts_msgs_classified allocOk len
            (Ev.msg .stderr (.shortRead s g)) hmem
          rcases hcl with ⟨x, hx⟩ | ⟨x, hx⟩ | hx <;> simp at hx
        | some size =>
          cases hloop : ftfLoop rd wr (len + 1) 0 len size with
          | none => simp [flash_to_file, hl, hc, ha, hloop] at h
          | some p =>
            obtain ⟨b, tr'⟩ := p
            have hterm := ftfLoop_shortRead_aborts rd wr hw (len + 1) 0 len size b tr' hloop s g
            cases b with
            | false =>
              simp [flash_to_file, hl, hc, ha, hloop] at h
              obtain ⟨hcode, htr⟩ := h
              subst htr
              rw [List.mem_append] at hmem
              cases hmem with
              | inl hm =>
                have hcl := allocAttempts_msgs_classified allocOk len
                  (Ev.msg .stderr (.shortRead s g)) hm
                rcases hcl with ⟨x, hx⟩ | ⟨x, hx⟩ | hx <;> simp at hx
              | inr hm =>
                obtain ⟨_, t1, t2, ht2, hnr⟩ := hterm hm
                exact ⟨by omega, (allocAttempts allocOk len).2.1 ++ t1, t2,
                  by rw [ht2]; simp, hnr⟩
            | true =>
              simp [flash_to_file, hl, hc, ha, hloop] at h
              obtain ⟨hcode, htr⟩ := h
              subst htr
              simp only [List.mem_append] at hmem
              rcases hmem with hm | hm | hm
              · have hcl := allocAttempts_msgs_classified allocOk len
                  (Ev.msg .stderr (.shortRead s g)) hm
                rcases hcl with ⟨x, hx⟩ | ⟨x, hx⟩ | hx <;> simp at hx
              · exact absurd (hterm hm).1 (by simp)
              · simp at hm
      · simp [flash_to_file, hl, hc] at h
        obtain ⟨hcode, htr⟩ := h
        subst htr
        simp at hmem
    · simp [flash_to_file, hl] at h
      obtain ⟨hcode, htr⟩ := h
      subst htr
      simp at hmem

/-- Witness for C2 (amended) at the concrete short-read input. -/
theorem short_read_handling_C2_amended_witness :
    (1 : Nat) = 1 ∧
    ∃ t1 t2, [Ev.readDev 4 2, Ev.msg .stderr (.shortRead 4 2), Ev.writeFile 2 2,
        Ev.msg .stderr (.shortWrite 2 4)] =
      t1 ++ Ev.msg .stderr (.shortRead 4 2) :: t2 ∧
      ∀ c r, Ev.readDev c r ∉ t2 :=
  short_read_handling_C2_amended.2 true true (fun _ _ => true) (fun _ _ => 2)
    (fun _ c => (c : Int)) 0 4 1
    [Ev.readDev 4 2, Ev.msg .stderr (.shortRead 4 2), Ev.writeFile 2 2,
     Ev.msg .stderr (.shortWrite 2 4)]
    (fun _ c => le_refl _) (by decide) 4 2 (by decide)

theorem fltLoop_freadFail_terminal (frd : Nat → Nat → Bool) (wr : Nat → Nat → Int) :
    ∀ (fuel i n size : Nat) (b : Bool) (tr : List Ev),
      fltLoop frd wr fuel i n size = some (b, tr) →
      ∀ s, Ev.freadFile s false ∈ tr →
        b = false ∧ ∃ t1 nn, tr = t1 ++ [Ev.freadFile s false,
          Ev.msg .stderr (.freadErr s nn), Ev.msg .stderr (.perror "fread()")] := by
  intro fuel
  induction fuel with
  | zero => intro i n size b tr h; simp [fltLoop] at h
  | succ f ih =>
    intro i n size b tr h s hmem
    rw [fltLoop] at h
    cases hstep : fltStep frd wr i n size with
    | abort t =>
      rw [hstep] at h
      simp only [Option.some.injEq, Prod.mk.injEq] at h
      obtain ⟨hb, htr⟩ := h
      subst hb htr
      simp only [fltStep] at hstep
      split_ifs at hstep with h1 h2 <;>
        simp only [StepOut.abort.injEq] at hstep <;>
        subst hstep <;>
        simp at hmem
      subst hmem
      exact ⟨rfl, [], n, rfl⟩
    | done t =>
      rw [hstep] at h
      simp only [Option.some.injEq, Prod.mk.injEq] at h
      obtain ⟨hb, htr⟩ := h
      subst hb htr
      simp only [fltStep] at hstep
      split_ifs at hstep <;> simp at hstep <;> subst hstep <;> simp at hmem
    | next n' s' t =>
      rw [hstep] at h
      dsimp only at h
      cases hrec : fltLoop frd wr f (i + 1) n' s' with
      | none => rw [hrec] at h; simp at h
      | some p =>
        obtain ⟨b', tr'⟩ := p
        rw [hrec] at h
        simp only [Option.some.injEq, Prod.mk.injEq] at h
        obtain ⟨hb, htr⟩ := h
        subst hb htr
        rw [List.mem_append] at hmem
        cases hmem with
        | inl hm =>
          exfalso
          simp only [fltStep] at hstep
          split_ifs at hstep <;> simp at hstep
          obtain ⟨_, _, htr3⟩ := hstep
          subst htr3
          simp at hm
        | inr hm =>
          obtain ⟨hb', t1, nn, ht2⟩ := ih (i + 1) n' s' b' tr' hrec s hm
          exact ⟨hb', t ++ t1, nn, by rw [ht2]; simp⟩

/-- C7: in the file-to-device direction a failed/short source-file read
aborts the loop body immediately with the fread diagnostics and no
device write in that iteration; at the whole-transfer level, whenever a
failed source read appears in the trace the operation fails with result
1 and the only events after the failed read are the two stderr
diagnostics — no device write is issued beyond the data already
available. -/
theorem file_read_error_C7 :
    (∀ (frd : Nat → Nat → Bool) (wr : Nat → Nat → Int) (i n size0 : Nat),
      frd i (chunk n size0) = false →
      fltStep frd wr i n size0 = .abort [Ev.freadFile (chunk n size0) false,
        Ev.msg .stderr (.freadErr (chunk n size0) n), Ev.msg .stderr (.perror "fread()")]) ∧
    (∀ lseekOk fopenOk allocOk frd wr offset len code tr,
      file_to_flash lseekOk fopenOk allocOk frd wr offset len = some (code, tr) →
      ∀ s, Ev.freadFile s false ∈ tr →
        code = 1 ∧ ∃ t1 nn, tr = t1 ++ [Ev.freadFile s false,
          Ev.msg .stderr (.freadErr s nn), Ev.msg .stderr (.perror "fread()")]) := by
  constructor
  · intro frd wr i n size0 hf
    simp [fltStep, hf]
  · intro lseekOk fopenOk allocOk frd wr offset len code tr h s hmem
    by_cases hl : lseekOk
    · by_cases hc : fopenOk
      · cases ha : (allocAttempts allocOk len).2.2 with
        | none =>
          simp [file_to_flash, hl, hc, ha] at h
          obtain ⟨hcode, htr⟩ := h
          subst htr
          have hcl := allocAttempts_msgs_classified allocOk len (Ev.freadFile s false) hmem
          rcases hcl with ⟨x, hx⟩ | ⟨x, hx⟩ | hx <;> simp at hx
        | some size =>
          cases hloop : fltLoop frd wr (len + 1) 0 len size with
          | none => simp [file_to_flash, hl, hc, ha, hloop] at h
          | some p =>
            obtain ⟨b, tr'⟩ := p
            have hterm := fltLoop_freadFail_terminal frd wr (len + 1) 0 len size b tr' hloop s
            cases b with
            | false =>
              simp [file_to_flash, hl, hc, ha, hloop] at h
              obtain ⟨hcode, htr⟩ := h
              subst htr
              rw [List.mem_append] at hmem
              cases hmem with
              | inl hm =>
                have hcl := allocAttempts_msgs_classified allocOk len (Ev.freadFile s false) hm
                rcases hcl with ⟨x, hx⟩ | ⟨x, hx⟩ | hx <;> simp at hx
              | inr hm =>
                obtain ⟨_, t1, nn, ht2⟩ := hterm hm
                exact ⟨by omega, (allocAttempts allocOk len).2.1 ++ t1, nn, by rw [ht2]; simp⟩
            | true =>
              simp [file_to_flash, hl, hc, ha, hloop] at h
              obtain ⟨hcode, htr⟩ := h
              subst htr
              simp only [List.mem_append] at hmem
              rcases hmem with hm | hm | hm
              · have hcl := allocAttempts_msgs_classified allocOk len (Ev.freadFile s false) hm
                rcases hcl with ⟨x, hx⟩ | ⟨x, hx⟩ | hx <;> simp at hx
              · exact absurd (hterm hm).1 (by simp)
              · simp at hm
      · simp [file_to_flash, hl, hc] at h
        obtain ⟨hcode, htr⟩ := h
        subst htr
        simp at hmem
    · simp [file_to_flash, hl] at h
      obtain ⟨hcode, htr⟩ := h
      subst htr
      simp at hmem

/-- Witness for C7: a two-chunk write-in (the 64 KiB fallback buffer is
smaller than the 65537-byte length) whose source file runs out at the
second chunk; the transfer fails right there with no device write after
the failed read. -/
theorem file_read_error_C7_witness :
    (1 : Nat) = 1 ∧
    ∃ t1 nn, [Ev.msg StdStream.stderr (MsgK.mallocFail 65537),
        Ev.msg StdStream.stderr (MsgK.tryBufSize 65536),
        Ev.freadFile 65536 true, Ev.writeDev 65536 65536, Ev.freadFile 1 false,
        Ev.msg StdStream.stderr (MsgK.freadErr 1 1),
        Ev.msg StdStream.stderr (MsgK.perror "fread()")] =
      t1 ++ [Ev.freadFile 1 false, Ev.msg StdStream.stderr (MsgK.freadErr 1 nn),
        Ev.msg StdStream.stderr (MsgK.perror "fread()")] :=
  file_read_error_C7.2 true true (fun a _ => a == 1) (fun k _ => k == 0)
    (fun _ c => (c : Int)) 0 65537 1
    [Ev.msg StdStream.stderr (MsgK.mallocFail 65537),
     Ev.msg StdStream.stderr (MsgK.tryBufSize 65536),
     Ev.freadFile 65536 true, Ev.writeDev 65536 65536, Ev.freadFile 1 false,
     Ev.msg StdStream.stderr (MsgK.freadErr 1 1),
     Ev.msg StdStream.stderr (MsgK.perror "fread()")]
    (by decide) 1 (by decide)

/-- C10: with the POSIX bound that `read` and `write` transfer at most
the requested count, the device-to-file loop body advances to a next
iteration (or exits the loop normally) only when the device read
returned exactly the requested chunk and the file write wrote exactly
that many bytes; on advance the remaining count is decremented by that
full chunk; and a short (non-negative) device read always aborts,
because the post-write check compares the bytes written against the
requested chunk size rather than the bytes read. -/
theorem loop_advance_full_chunk_C10 :
    ∀ (rd wr : Nat → Nat → Int) (i n size0 : Nat),
      rd i (chunk n size0) ≤ (chunk n size0 : Int) →
      (∀ c : Nat, wr i c ≤ (c : Int)) →
      (∀ n' s' t, ftfStep rd wr i n size0 = .next n' s' t →
        rd i (chunk n size0) = (chunk n size0 : Int) ∧
        wr i (chunk n size0) = (chunk n size0 : Int) ∧
        n' = n - chunk n size0 ∧ s' = chunk n size0 ∧ 0 < n - chunk n size0) ∧
      (∀ t, ftfStep rd wr i n size0 = .done t →
        rd i (chunk n size0) = (chunk n size0 : Int) ∧
        wr i (chunk n size0) = (chunk n size0 : Int)) ∧
      (0 ≤ rd i (chunk n size0) → rd i (chunk n size0) < (chunk n size0 : Int) →
        ∃ t, ftfStep rd wr i n size0 = .abort t) := by
  intro rd wr i n size0 hrd hw
  refine ⟨?_, ?_, ?_⟩
  · intro n' s' t h
    have hwle := hw (rd i (chunk n size0)).toNat
    simp only [ftfStep] at h
    split_ifs at h with h1 h2 h3 h4 <;> simp at h
    · omega
    · have hr : (rd i (chunk n size0)).toNat = chunk n size0 := by omega
      rw [hr] at h3
      refine ⟨by omega, by omega, by omega, by omega, h4⟩
  · intro t h
    have hwle := hw (rd i (chunk n size0)).toNat
    simp only [ftfStep] at h
    split_ifs at h with h1 h2 h3 h4 <;> simp at h
    · omega
    · have hr : (rd i (chunk n size0)).toNat = chunk n size0 := by omega
      rw [hr] at h3
      exact ⟨by omega, by omega⟩
  · intro h0 hlt
    obtain ⟨t, ht, _⟩ := ftfStep_shortRead_abort rd wr i n size0 h0 hlt hw
    exact ⟨t, ht⟩

/-- Witness for C10 on a concrete two-chunk state with exact-count
oracles: the step advances with the remaining count decremented by the
full 4-byte chunk. -/
theorem loop_advance_full_chunk_C10_witness :
    (fun (_ : Nat) (c : Nat) => (c : Int)) 0 (chunk 8 4) = (chunk 8 4 : Int) ∧
    (fun (_ : Nat) (c : Nat) => (c : Int)) 0 (chunk 8 4) = (chunk 8 4 : Int) ∧
    (4 : Nat) = 8 - chunk 8 4 ∧ (4 : Nat) = chunk 8 4 ∧ 0 < 8 - chunk 8 4 :=
  (loop_advance_full_chunk_C10 (fun _ c => (c : Int)) (fun _ c => (c : Int)) 0 8 4
    (le_refl _) (fun _ => le_refl _)).1 4 4
    [Ev.readDev 4 4, Ev.writeFile 4 4] (by decide)

theorem ftfStep_next_state (rd wr : Nat → Nat → Int) (i n size0 n' s' : Nat) (t : List Ev)
    (h : ftfStep rd wr i n size0 = .next n' s' t) :
    n' = n - chunk n size0 ∧ s' = chunk n size0 ∧ 0 < n - chunk n size0 := by
  simp only [ftfStep] at h
  split_ifs at h with h1 h2 h3 h4 <;> simp at h <;> exact ⟨by omega, by omega, h4⟩

theorem fltStep_next_state (frd : Nat → Nat → Bool) (wr : Nat → Nat → Int)
    (i n size0 n' s' : Nat) (t : List Ev)
    (h : fltStep frd wr i n size0 = .next n' s' t) :
    n' = n - chunk n size0 ∧ s' = chunk n size0 ∧ 0 < n - chunk n size0 := by
  simp only [fltStep] at h
  split_ifs at h with h1 h2 h3 <;> simp at h <;> exact ⟨by omega, by omega, h3⟩

theorem chunk_pos (n size : Nat) (hn : 0 < n) (hs : 0 < size) : 0 < chunk n size := by
  unfold chunk
  split <;> omega

theorem ftfLoop_total (rd wr : Nat → Nat → Int) :
    ∀ (fuel i n size : Nat), n < fuel → (0 < size ∨ n = 0) →
      ftfLoop rd wr fuel i n size ≠ none := by
  intro fuel
  induction fuel with
  | zero => intro i n size h _; exact absurd h (Nat.not_lt_zero n)
  | succ f ih =>
    intro i n size hfuel hsz
    rw [ftfLoop]
    cases hstep : ftfStep rd wr i n size with
    | abort t => simp
    | done t => simp
    | next n' s' t =>
      obtain ⟨hn', hs', hpos⟩ := ftfStep_next_state rd wr i n size n' s' t hstep
      have hn0 : 0 < n := by omega
      have hs0 : 0 < size := by
        cases hsz with
        | inl h => exact h
        | inr h => omega
      have hch := chunk_pos n size hn0 hs0
      have hrec := ih (i + 1) n' s' (by omega) (Or.inl (by omega))
      cases hr : ftfLoop rd wr f (i + 1) n' s' with
      | none => exact absurd hr hrec
      | some p => simp [hr]

theorem fltLoop_total (frd : Nat → Nat → Bool) (wr : Nat → Nat → Int) :
    ∀ (fuel i n size : Nat), n < fuel → (0 < size ∨ n = 0) →
      fltLoop frd wr fuel i n size ≠ none := by
  intro fuel
  induction fuel with
  | zero => intro i n size h _; exact absurd h (Nat.not_lt_zero n)
  | succ f ih =>
    intro i n size hfuel hsz
    rw [fltLoop]
    cases hstep : fltStep frd wr i n size with
    | abort t => simp
    | done t => simp
    | next n' s' t =>
      obtain ⟨hn', hs', hpos⟩ := fltStep_next_state frd wr i n size n' s' t hstep
      have hn0 : 0 < n := by omega
      have hs0 : 0 < size := by
        cases hsz with
        | inl h => exact h
        | inr h => omega
      have hch := chunk_pos n size hn0 hs0
      have hrec := ih (i + 1) n' s' (by omega) (Or.inl (by omega))
      cases hr : fltLoop frd wr f (i + 1) n' s' with
      | none => exact absurd hr hrec
      | some p => simp [hr]

theorem allocAttempts_obtained_size (allocOk : Nat → Nat → Bool) (L s : Nat)
    (h : (allocAttempts allocOk L).2.2 = some s) : s = L ∨ s = bufSize := by
  unfold allocAttempts at h
  split_ifs at h <;> simp at h <;> omega

theorem flash_to_file_total (lseekOk creatOk : Bool) (allocOk : Nat → Nat → Bool)
    (rd wr : Nat → Nat → Int) (offset len : Nat) :
    flash_to_file lseekOk creatOk allocOk rd wr offset len ≠ none := by
  by_cases hl : lseekOk
  · by_cases hc : creatOk
    · cases ha : (allocAttempts allocOk len).2.2 with
      | none => simp [flash_to_file, hl, hc, ha]
      | some size =>
        have hsz : 0 < size ∨ len = 0 := by
          rcases allocAttempts_obtained_size allocOk len size ha with h | h <;>
            simp [h, bufSize] <;> omega
        have := ftfLoop_total rd wr (len + 1) 0 len size (by omega) hsz
        cases hr : ftfLoop rd wr (len + 1) 0 len size with
        | none => exact absurd hr this
        | some p => obtain ⟨b, tr⟩ := p; cases b <;> simp [flash_to_file, hl, hc, ha, hr]
    · simp [flash_to_file, hl, hc]
  · simp [flash_to_file, hl]

theorem file_to_flash_total (lseekOk fopenOk : Bool) (allocOk frd : Nat → Nat → Bool)
    (wr : Nat → Nat → Int) (offset len : Nat) :
    file_to_flash lseekOk fopenOk allocOk frd wr offset len ≠ none := by
  by_cases hl : lseekOk
  · by_cases hc : fopenOk
    · cases ha : (allocAttempts allocOk len).2.2 with
      | none => simp [file_to_flash, hl, hc, ha]
      | some size =>
        have hsz : 0 < size ∨ len = 0 := by
          rcases allocAttempts_obtained_size allocOk len size ha with h | h <;>
            simp [h, bufSize] <;> omega
        have := fltLoop_total frd wr (len + 1) 0 len size (by omega) hsz
        cases hr : fltLoop frd wr (len + 1) 0 len size with
        | none => exact absurd hr this
        | some p => obtain ⟨b, tr⟩ := p; cases b <;> simp [file_to_flash, hl, hc, ha, hr]
    · simp [file_to_flash, hl, hc]
  · simp [file_to_flash, hl]

/-- C9: each command opens the device with the minimal sufficient access
mode — read-only for info and read-out, read-write for write-in and
erase — and, whenever the open succeeded, the close call happens on
every path, including when the delegated operation failed; a failed
close is fatal (`errmsg_die`). -/
theorem facade_open_close_C9 :
    ∀ (findOk openOk closeOk : Bool) (memErr : Int) (cntRes : Int × Int)
      (q : Nat → Int × Nat × Nat × Nat) (memeraseRes : Int)
      (lseekOk creatOk fopenOk : Bool) (allocOk : Nat → Nat → Bool)
      (rd wr : Nat → Nat → Int) (frd : Nat → Nat → Bool) (offset len : Nat),
      (findOk = true →
        (mtd_debug_info findOk openOk memErr cntRes q closeOk).tr.head? =
          some (.openDev .rdonly openOk) ∧
        (mtd_debug_read findOk openOk lseekOk creatOk allocOk rd wr closeOk offset len).tr.head? =
          some (.openDev .rdonly openOk) ∧
        (mtd_debug_write findOk openOk lseekOk fopenOk allocOk frd wr closeOk offset len).tr.head? =
          some (.openDev .rdwr openOk) ∧
        (mtd_debug_erase findOk openOk memeraseRes closeOk offset len).tr.head? =
          some (.openDev .rdwr openOk)) ∧
      (findOk = true → openOk = true →
        ∀ F ∈ [mtd_debug_info findOk openOk memErr cntRes q closeOk,
               mtd_debug_read findOk openOk lseekOk creatOk allocOk rd wr closeOk offset len,
               mtd_debug_write findOk openOk lseekOk fopenOk allocOk frd wr closeOk offset len,
               mtd_debug_erase findOk openOk memeraseRes closeOk offset len],
          FEv.closeDev ∈ F.tr ∧ (closeOk = false → ∃ t, F = FRes.died t)) := by
  intro findOk openOk closeOk memErr cntRes q memeraseRes lseekOk creatOk fopenOk
    allocOk rd wr frd offset len
  constructor
  · intro hfind
    subst hfind
    refine ⟨?_, ?_, ?_, ?_⟩
    · by_cases ho : openOk
      · by_cases hcl : closeOk <;> simp [mtd_debug_info, ho, hcl, FRes.tr]
      · simp [mtd_debug_info, ho, FRes.tr]
    · by_cases ho : openOk
      · cases hp : flash_to_file lseekOk creatOk allocOk rd wr offset len with
        | none => exact absurd hp (flash_to_file_total lseekOk creatOk allocOk rd wr offset len)
        | some p =>
          obtain ⟨err, tr2⟩ := p
          by_cases hcl : closeOk <;> simp [mtd_debug_read, ho, hcl, hp, FRes.tr]
      · simp [mtd_debug_read, ho, FRes.tr]
    · by_cases ho : openOk
      · cases hp : file_to_flash lseekOk fopenOk allocOk frd wr offset len with
        | none => exact absurd hp (file_to_flash_total lseekOk fopenOk allocOk frd wr offset len)
        | some p =>
          obtain ⟨err, tr2⟩ := p
          by_cases hcl : closeOk <;> simp [mtd_debug_write, ho, hcl, hp, FRes.tr]
      · simp [mtd_debug_write, ho, FRes.tr]
    · by_cases ho : openOk
      · by_cases hcl : closeOk <;> simp [mtd_debug_erase, ho, hcl, FRes.tr]
      · simp [mtd_debug_erase, ho, FRes.tr]
  · intro hfind hopen F hF
    subst hfind hopen
    fin_cases hF
    · by_cases hcl : closeOk <;> simp [mtd_debug_info, hcl, FRes.tr]
    · cases hp : flash_to_file lseekOk creatOk allocOk rd wr offset len with
      | none => exact absurd hp (flash_to_file_total lseekOk creatOk allocOk rd wr offset len)
      | some p =>
        obtain ⟨err, tr2⟩ := p
        by_cases hcl : closeOk <;> simp [mtd_debug_read, hcl, hp, FRes.tr]
    · cases hp : file_to_flash lseekOk fopenOk allocOk frd wr offset len with
      | none => exact absurd hp (file_to_flash_total lseekOk fopenOk allocOk frd wr offset len)
      | some p =>
        obtain ⟨err, tr2⟩ := p
        by_cases hcl : closeOk <;> simp [mtd_debug_write, hcl, hp, FRes.tr]
    · by_cases hcl : closeOk <;> simp [mtd_debug_erase, hcl, FRes.tr]

/-- Witness for C9: a concrete erase command whose `MEMERASE` fails (so
the delegated operation reports failure) still closes the device
handle. -/
theorem facade_open_close_C9_witness :
    FEv.closeDev ∈ (mtd_debug_erase true true (-1) true 0 16).tr ∧
    (true = false → ∃ t, mtd_debug_erase true true (-1) true 0 16 = FRes.died t) :=
  (facade_open_close_C9 true true true 0 (0, 0) (fun _ => (0, 0, 0, 0)) (-1)
    true true true (fun _ _ => true) (fun _ c => (c : Int)) (fun _ c => (c : Int))
    (fun _ _ => true) 0 16).2 rfl rfl
    (mtd_debug_erase true true (-1) true 0 16) (by decide)
